import Mathlib

/-!
Verification of the NIRVANA bisymmetric velocity-field fitting pipeline.

The definitions below are a shallow embedding, over `ℚ`, of functions from
`nirvana/fitting.py` (`unpack`, `smoothing`, `ptform`, `mixlike`,
`bisym_model`), of the radial-bin-count gate of `nirvana/models/bisym.py`
(`fit`) and of the posterior-shape check of `nirvana/plotting.py`
(`fileprep`).  Transcendental library routines (`np.sin`, `np.exp`,
`scipy.stats.norm.ppf`, ...) and repository modules that are not among the
four embedded source files (`models/geometry.py`, `models/beam.py`,
`data/kinematics.py`) enter as abstract parameters collected in the `Prims`
structure or as abstract fields of the galaxy context `Args`.
-/

/-- Elementwise map over four lists, mirroring a four-operand vectorized
numpy expression; the result is truncated to the shortest operand. -/
def zipWith4 {α β γ δ ε : Type} (f : α → β → γ → δ → ε) :
    List α → List β → List γ → List δ → List ε
  | a :: as, b :: bs, c :: cs, d :: ds => f a b c d :: zipWith4 f as bs cs ds
  | _, _, _, _ => []

/-- Abstract numerical primitives.  `sin`, `cos`, `exp`, `log`, `sqrt` and
`normppf` stand for the `numpy`/`scipy` routines of the same names
(`normppf q loc scale` is `scipy.stats.norm.ppf(q, loc, scale)`); `pi` is
`np.pi`.  `polar x y pa inc` models `projected_polar` from
`nirvana/models/geometry.py` at one point, and `smearVel`/`smearSig` model
the velocity and dispersion planes returned by `smear` from
`nirvana/models/beam.py`; those two modules are not among the embedded
source files, so (modelled from the spec, geometry and beam-smearing
sections) they stay abstract functions here. -/
structure Prims where
  pi : ℚ
  sin : ℚ → ℚ
  cos : ℚ → ℚ
  exp : ℚ → ℚ
  log : ℚ → ℚ
  sqrt : ℚ → ℚ
  normppf : ℚ → ℚ → ℚ → ℚ
  polar : ℚ → ℚ → ℚ → ℚ → ℚ × ℚ
  smearVel : List ℚ → Option (List ℚ) → Option (List ℚ) → List ℚ
  smearSig : List ℚ → Option (List ℚ) → List ℚ → List ℚ

/-- The per-galaxy context (`args` in the source): the fields of the
`FitArgs`/`Kinematics` bundle that the embedded functions read.  Data planes
are flattened to lists; masks are boolean lists (`true` = masked), absent
masks are `none`.  `bin` models the `Kinematics.bin` rebinning method and
`sb` the remapped surface-brightness plane; `data/kinematics.py` is not
among the embedded source files, so both are abstract context data
(modelled from the spec, bin-mapper section). `beam` records whether
`args.beam_fft` is present. -/
structure Args where
  nglobs : ℕ
  edges : List ℚ
  disp : Bool
  mix : Bool
  fixcent : Bool
  weight : ℚ
  reff : ℚ
  grid : List (ℚ × ℚ)
  vel : List ℚ
  vel_ivar : Option (List ℚ)
  sig_phys2 : List ℚ
  sig_phys2_ivar : Option (List ℚ)
  vel_mask : Option (List Bool)
  sig_mask : Option (List Bool)
  bordermask : Option (List Bool)
  beam : Bool
  sb : List ℚ
  bin : List ℚ → List ℚ

/-- The parameter dictionary built by `nirvana.fitting.unpack`.  Keys that
the source only adds conditionally (`sig` when `args.disp`, and `Q`, `M`,
`lnV` when `args.mix`) are `Option`-valued, `none` meaning the key is absent
from the Python dict. -/
structure ParamDict where
  inc : ℚ
  pa : ℚ
  pab : ℚ
  vsys : ℚ
  xc : ℚ
  yc : ℚ
  vt : List ℚ
  v2t : List ℚ
  v2r : List ℚ
  sig : Option (List ℚ)
  Q : Option ℚ
  M : Option ℚ
  lnV : Option ℚ
deriving DecidableEq

/-- Python slice `l[a : a + n]`. -/
def seg (l : List ℚ) (a n : ℕ) : List ℚ := (l.drop a).take n

/-- `nirvana.fitting.unpack(params, args, jump=None)`.  Faithful points:
`jump` defaults to `len(args.edges)`; the globals are read by tuple
destructuring of `params[:nglobs]` (an error, hence `none`, when fewer than
`nglobs` entries exist; for an `nglobs` other than 4 or 6 the source leaves
the global keys unset so that every caller faults on the missing keys, also
modelled as `none`); the velocity blocks are the consecutive slices of
length `jump` starting at `nglobs`; with `args.disp` the dispersion slice
takes `jump + 1` entries (`sigjump = jump + 1` in the source,
unconditionally); with `args.mix` the entries `params[end]`, `params[end+1]`,
`params[end+2]` are read by index (an `IndexError`, hence `none`, when the
vector is too short).  Out-of-range slices silently truncate, as in Python. -/
def unpack (params : List ℚ) (args : Args) (jump? : Option ℕ) : Option ParamDict :=
  let jump := jump?.getD args.edges.length
  let start := args.nglobs
  let sigLen := if args.disp then jump + 1 else 0
  let endIdx := start + 3 * jump + sigLen
  let globs? : Option (ℚ × ℚ × ℚ × ℚ × ℚ × ℚ) :=
    if args.nglobs = 4 then
      if 4 ≤ params.length then
        some (params.getD 0 0, params.getD 1 0, params.getD 2 0, params.getD 3 0, 0, 0)
      else none
    else if args.nglobs = 6 then
      if 6 ≤ params.length then
        some (params.getD 0 0, params.getD 1 0, params.getD 2 0, params.getD 3 0,
              params.getD 4 0, params.getD 5 0)
      else none
    else none
  let mixvals? : Option (Option ℚ × Option ℚ × Option ℚ) :=
    if args.mix then
      if endIdx + 3 ≤ params.length then
        some (some (params.getD endIdx 0), some (params.getD (endIdx + 1) 0),
              some (params.getD (endIdx + 2) 0))
      else none
    else some (none, none, none)
  match globs?, mixvals? with
  | some (inc, pa, pab, vsys, xc, yc), some (q, m, lnv) =>
      some ⟨inc, pa, pab, vsys, xc, yc,
            seg params start jump, seg params (start + jump) jump,
            seg params (start + 2 * jump) jump,
            if args.disp then some (seg params (start + 3 * jump) (jump + 1)) else none,
            q, m, lnv⟩
  | _, _ => none

/-- The length of a flat parameter vector laid out exactly as `unpack`
expects it under the context's flags. -/
def expectedLen (args : Args) : ℕ :=
  args.nglobs + 3 * args.edges.length
    + (if args.disp then args.edges.length + 1 else 0)
    + (if args.mix then 3 else 0)

/-- The index `end` computed inside `unpack`: the offset of the mixture
parameters, one past the velocity and dispersion blocks. -/
def unpackEnd (args : Args) : ℕ :=
  args.nglobs + 3 * args.edges.length + (if args.disp then args.edges.length + 1 else 0)

/-- Modelled from the spec: the parameter packer section describes
`pack(paramdict, args) -> flat vector` as the inverse reshape of `unpack`,
with the fixed order globals (4 or 6), vt, v2t, v2r, then sig when
dispersion is fitted, then Q, M, lnV when the mixture is enabled.  No `pack`
function appears in the four embedded source files, so this definition
follows the spec's layout words. -/
def pack (d : ParamDict) (args : Args) : List ℚ :=
  (if args.nglobs = 6 then [d.inc, d.pa, d.pab, d.vsys, d.xc, d.yc]
   else [d.inc, d.pa, d.pab, d.vsys])
  ++ d.vt ++ d.v2t ++ d.v2r
  ++ (if args.disp then d.sig.getD [] else [])
  ++ (if args.mix then [d.Q.getD 0, d.M.getD 0, d.lnV.getD 0] else [])

/-- `nirvana.fitting.smoothing(array, weight)`: pads the array with a zero
on the left and a copy of its last value on the right, takes the average of
the two neighbours of each bin, and sums the chi squares of the bins against
those averages, scaled by `weight`.  The source replaces non-finite
chi-square terms (a zero denominator) by zero, which coincides with rational
division by zero here; `array[-1]` on an empty array is a Python error,
modelled by a zero pad (no claim evaluates it on an empty array). -/
def smoothing (array : List ℚ) (weight : ℚ) : ℚ :=
  let edgearray := 0 :: array ++ [array.getLast?.getD 0]
  let avgs := List.zipWith (fun a b => (a + b) / 2) edgearray (edgearray.drop 2)
  let chisq := List.zipWith (fun avg x => (avg - x) ^ 2 / |x|) avgs array
  chisq.sum * weight

/-- Linear interpolation with edge clamping, the documented semantics of the
external routine `np.interp(x, xp, fp)`: queries at or left of the first
sample return the first value, queries right of the last sample return the
last value, and interior queries interpolate linearly between the bracketing
samples.  A mismatched or empty sample list is a numpy error; here such
calls return a junk value, which no claim exercises. -/
def interp (x : ℚ) : List ℚ → List ℚ → ℚ
  | [], _ => 0
  | _ :: _, [] => 0
  | [_], y0 :: _ => y0
  | x0 :: x1 :: xs, y0 :: ys =>
    if x ≤ x0 then y0
    else
      match ys with
      | [] => y0
      | y1 :: ys' =>
        if x ≤ x1 then y0 + (y1 - y0) * (x - x0) / (x1 - x0)
        else interp x (x1 :: xs) (y1 :: ys')

/-- `np.radians`: degrees to radians. -/
def radians (P : Prims) (x : ℚ) : ℚ := x * P.pi / 180

/-- The external routine `np.logaddexp(a, b) = log(exp a + exp b)`. -/
def logaddexp (P : Prims) (a b : ℚ) : ℚ := P.log (P.exp a + P.exp b)

/-- The deprojected polar coordinates of every grid point, as computed at
the top of `nirvana.fitting.bisym_model`: the angles are converted to
radians and `projected_polar` is evaluated on the recentred grid. -/
def bisym_rth (P : Prims) (args : Args) (d : ParamDict) : List (ℚ × ℚ) :=
  args.grid.map fun xy =>
    P.polar (xy.1 - d.xc) (xy.2 - d.yc) (radians P d.pa) (radians P d.inc)

/-- The velocity plane of `nirvana.fitting.bisym_model` before beam
smearing: the deprojected radius is normalized by `args.reff`, the three
radial profiles are interpolated at it, and the Spekkens & Sellwood
second-order harmonic expression of the source is evaluated elementwise. -/
def bisym_velmodel (P : Prims) (args : Args) (d : ParamDict) : List ℚ :=
  let rth := bisym_rth P args d
  let r := rth.map fun p => p.1 / args.reff
  let th := rth.map Prod.snd
  let inc := radians P d.inc
  let pab := radians P d.pab
  let vtvals := r.map fun x => interp x args.edges d.vt
  let v2tvals := r.map fun x => interp x args.edges d.v2t
  let v2rvals := r.map fun x => interp x args.edges d.v2r
  zipWith4 (fun t vtv v2tv v2rv =>
      d.vsys + P.sin inc * (vtv * P.cos t
        - v2tv * P.cos (2 * (t - pab)) * P.cos t
        - v2rv * P.sin (2 * (t - pab)) * P.sin t))
    th vtvals v2tvals v2rvals

/-- The dispersion plane of `nirvana.fitting.bisym_model` before beam
smearing: the `sig` profile interpolated at the same normalized radii. -/
def bisym_sigmodel (P : Prims) (args : Args) (d : ParamDict) : List ℚ :=
  ((bisym_rth P args d).map fun p => p.1 / args.reff).map
    fun x => interp x args.edges (d.sig.getD [])

/-- `nirvana.fitting.bisym_model(args, paramdict)` (non-plot path): builds
the velocity plane and, when `args.disp`, the dispersion plane; applies the
(abstract) beam smearing when a beam is present; rebins both planes with the
(abstract) `args.bin`.  The validity masks `args.vel_mask`/`args.sig_mask`
that the source attaches to the binned masked arrays are kept in the context
and applied by the consumers at summation time. -/
def bisym_model (P : Prims) (args : Args) (d : ParamDict) : List ℚ × Option (List ℚ) :=
  let velgrid := bisym_velmodel P args d
  let siggrid? := if args.disp then some (bisym_sigmodel P args d) else none
  let sb? := if args.disp then some args.sb else none
  let pair :=
    if args.beam then
      (P.smearVel velgrid sb? siggrid?, siggrid?.map (P.smearSig velgrid sb?))
    else (velgrid, siggrid?)
  (args.bin pair.1, pair.2.map args.bin)

/-- Union of two optional masks, as produced by wrapping an already masked
array in `np.ma.array(-, mask=-)`. -/
def maskOr : Option (List Bool) → Option (List Bool) → Option (List Bool)
  | none, m => m
  | some a, none => some a
  | some a, some b => some (a.zipWith (fun x y => x || y) b)

/-- Masked sum `np.ma.sum` / `np.sum` of a masked array: masked entries are
excluded, i.e. contribute zero. -/
def msum : Option (List Bool) → List ℚ → ℚ
  | none, xs => xs.sum
  | some m, xs => (List.zipWith (fun x b => if b then 0 else x) xs m).sum

/-- `nirvana.fitting.mixlike(params, args)`, the Hogg-style mixture
log-likelihood.  Faithful points: `goodvar` is `1/args.vel_ivar` (ones when
absent); `badvar = np.exp(lnV) + 1/goodvar`; the good and bad scores carry
`log Q` and `log (1-Q)` and are combined elementwise by `np.logaddexp`; when
a dispersion model exists the analogous dispersion scores (whose bad branch
reads `np.log(badvar)` of the velocity array, as in the source) are combined
with the velocity scores elementwise by `np.logaddexp` as well; the result
is summed under the accumulated masks and the smoothing penalties are
subtracted unconditionally with weight `args.weight`.  A missing `Q`/`lnV`
key (context without `mix`) or a failing `unpack` is a Python error, hence
`none`. -/
def mixlike (P : Prims) (params : List ℚ) (args : Args) : Option ℚ :=
  match unpack params args none with
  | none => none
  | some pd =>
    match pd.Q, pd.lnV with
    | some q, some lnv =>
      let model := bisym_model P args pd
      let velmodel := model.1
      let velmask := maskOr args.vel_mask args.bordermask
      let goodvar : List ℚ :=
        match args.vel_ivar with
        | some iv => iv.map (fun x => 1 / x)
        | none => args.vel.map (fun _ => 1)
      let badvar := goodvar.map (fun g => P.exp lnv + 1 / g)
      let goodlike := (List.zipWith3 (fun m v g => -(1/2 : ℚ) * ((m - v) ^ 2 / g + P.log g))
          velmodel args.vel goodvar).map (fun x => x + P.log q)
      let badlike := (List.zipWith3 (fun m v b => -(1/2 : ℚ) * ((m - v) ^ 2 / b + P.log b))
          velmodel args.vel badvar).map (fun x => x + P.log (1 - q))
      let llike := List.zipWith (logaddexp P) goodlike badlike
      match model.2 with
      | some sigmodel =>
        let sigmask := maskOr args.sig_mask args.bordermask
        let sigdata := args.sig_phys2.map P.sqrt
        let goodsigvar : List ℚ :=
          match args.sig_phys2_ivar with
          | some iv => iv
          | none => sigdata.map (fun _ => 1)
        let badsigvar := goodsigvar.map (fun g => P.exp lnv + 1 / g)
        let goodsiglike := (List.zipWith3
            (fun m v g => -(1/2 : ℚ) * ((m - v) ^ 2 / g + P.log g))
            sigmodel sigdata goodsigvar).map (fun x => x + P.log q)
        let badsiglike := (zipWith4
            (fun m v bs bv => -(1/2 : ℚ) * ((m - v) ^ 2 / bs + P.log bv))
            sigmodel sigdata badsigvar badvar).map (fun x => x + P.log (1 - q))
        let siglike := List.zipWith (logaddexp P) goodsiglike badsiglike
        let total := msum (maskOr velmask sigmask) (List.zipWith (logaddexp P) llike siglike)
        some (total - smoothing pd.vt args.weight - smoothing pd.v2t args.weight
              - smoothing pd.v2r args.weight - smoothing (pd.sig.getD []) args.weight)
      | none =>
        let total := msum velmask llike
        some (total - smoothing pd.vt args.weight - smoothing pd.v2t args.weight
              - smoothing pd.v2r args.weight)
    | _, _ => none

/-- Modelled from the spec: the mixture-likelihood section says each
residual is scored under a nominal-variance Gaussian with weight Q and under
a Gaussian whose variance is inflated by `exp(lnV)` with weight 1-Q, the two
scores combined by log-sum-exp; the velocity contribution and the dispersion
contribution are summed together; and the smoothness penalties are always
subtracted.  This definition follows those words (same masking and scoring
shape as the source, but the bad variance is `goodvar + exp lnV`, the
dispersion bad score reads its own variance, and the two data contributions
are added, each under its own mask). -/
def mixlike_spec (P : Prims) (params : List ℚ) (args : Args) : Option ℚ :=
  match unpack params args none with
  | none => none
  | some pd =>
    match pd.Q, pd.lnV with
    | some q, some lnv =>
      let model := bisym_model P args pd
      let velmodel := model.1
      let velmask := maskOr args.vel_mask args.bordermask
      let goodvar : List ℚ :=
        match args.vel_ivar with
        | some iv => iv.map (fun x => 1 / x)
        | none => args.vel.map (fun _ => 1)
      let badvar := goodvar.map (fun g => g + P.exp lnv)
      let goodlike := (List.zipWith3 (fun m v g => -(1/2 : ℚ) * ((m - v) ^ 2 / g + P.log g))
          velmodel args.vel goodvar).map (fun x => x + P.log q)
      let badlike := (List.zipWith3 (fun m v b => -(1/2 : ℚ) * ((m - v) ^ 2 / b + P.log b))
          velmodel args.vel badvar).map (fun x => x + P.log (1 - q))
      let llike := List.zipWith (logaddexp P) goodlike badlike
      let veltotal := msum velmask llike
      let sigtotal : ℚ :=
        match model.2 with
        | some sigmodel =>
          let sigmask := maskOr args.sig_mask args.bordermask
          let sigdata := args.sig_phys2.map P.sqrt
          let goodsigvar : List ℚ :=
            match args.sig_phys2_ivar with
            | some iv => iv
            | none => sigdata.map (fun _ => 1)
          let badsigvar := goodsigvar.map (fun g => g + P.exp lnv)
          let goodsiglike := (List.zipWith3
              (fun m v g => -(1/2 : ℚ) * ((m - v) ^ 2 / g + P.log g))
              sigmodel sigdata goodsigvar).map (fun x => x + P.log q)
          let badsiglike := (List.zipWith3
              (fun m v bs => -(1/2 : ℚ) * ((m - v) ^ 2 / bs + P.log bs))
              sigmodel sigdata badsigvar).map (fun x => x + P.log (1 - q))
          msum sigmask (List.zipWith (logaddexp P) goodsiglike badsiglike)
        | none => 0
      let penalties := smoothing pd.vt args.weight + smoothing pd.v2t args.weight
          + smoothing pd.v2r args.weight
          + (if args.disp then smoothing (pd.sig.getD []) args.weight else 0)
      some (veltotal + sigtotal - penalties)
    | _, _ => none

/-- One step of the inner downward loop of the correlated prior in
`nirvana.fitting.ptform`: `vi[i] = stats.norm.ppf(vi[i], vi[i+1], 50)`. -/
def corrStepDown (P : Prims) (a : List ℚ) (i : ℕ) : List ℚ :=
  a.set i (P.normppf (a.getD i 0) (a.getD (i + 1) 0) 50)

/-- One step of the inner upward loop of the correlated prior in
`nirvana.fitting.ptform`: `vi[i] = stats.norm.ppf(vi[i], vi[i-1], 50)`. -/
def corrStepUp (P : Prims) (a : List ℚ) (i : ℕ) : List ℚ :=
  a.set i (P.normppf (a.getD i 0) (a.getD (i - 1) 0) 50)

/-- The in-place loop of `nirvana.fitting.ptform` on one velocity profile in
the correlated regime (`args.weight == -1`): the middle bin
(`mid = len(vi)//2`) is scaled by 400, then the loop
`for i in range(mid-1, -1, -1)` walks down to index 0 and the loop
`for i in range(mid+1, len(vi))` walks up to the last index. -/
def corrWalk (P : Prims) (v : List ℚ) : List ℚ :=
  let mid := v.length / 2
  let a0 := v.set mid (400 * v.getD mid 0)
  let a1 := ((List.range mid).reverse).foldl (corrStepDown P) a0
  ((List.range v.length).drop (mid + 1)).foldl (corrStepUp P) a1

/-- The claim's description of the correlated prior applied to one profile:
the output has the input's length, its middle bin (index `length / 2`) is
the input's middle bin scaled by 400 (the wide uniform prior), and walking
outward in both directions every bin is the Gaussian inverse CDF of the
input bin centred on the previously drawn adjacent output bin with standard
deviation 50. -/
def corrSpec (P : Prims) (v b : List ℚ) : Prop :=
  b.length = v.length ∧
  b.getD (v.length / 2) 0 = 400 * v.getD (v.length / 2) 0 ∧
  (∀ i, i < v.length / 2 → b.getD i 0 = P.normppf (v.getD i 0) (b.getD (i + 1) 0) 50) ∧
  (∀ i, i < v.length → v.length / 2 < i →
    b.getD i 0 = P.normppf (v.getD i 0) (b.getD (i - 1) 0) 50)

/-- `nirvana.fitting.ptform(params, args)` with the default
`gaussprior=False` (the `gaussprior` branch immediately faults on the
missing `incg` guess key whenever it runs, and the sampler always calls the
function with the default, so only the default path is embedded).  Faithful
points: the globals are scaled uniformly; with `args.weight == -1` each
velocity profile (and the dispersion profile when `args.disp`) is
transformed by the correlated in-place walk, and the mixture parameters
`Qp`, `Mp`, `lnVp` are never assigned, so that the final
`if args.mix: repack += [Qp, Mp, lnVp]` raises `NameError` (hence `none`)
whenever `args.mix` is set in that regime; in the uniform regime the
profiles are scaled by 400/200/200/300 and the mixture tail is appended when
`args.mix`.  A failing `unpack` is a Python error, hence `none`. -/
def ptform (P : Prims) (params : List ℚ) (args : Args) : Option (List ℚ) :=
  match unpack params args none with
  | none => none
  | some pd =>
    let incp := 85 * pd.inc
    let pap := 360 * pd.pa
    let pabp := 180 * pd.pab
    let vsysp := (2 * pd.vsys - 1) * 100
    let centers := if args.nglobs = 6 then
        [(2 * pd.xc - 1) * 20, (2 * pd.yc - 1) * 20] else []
    if args.weight = -1 then
      if args.mix then none
      else
        let vtp := corrWalk P pd.vt
        let v2tp := corrWalk P pd.v2t
        let v2rp := corrWalk P pd.v2r
        let sigp := if args.disp then corrWalk P (pd.sig.getD []) else []
        some ([incp, pap, pabp, vsysp] ++ centers ++ vtp ++ v2tp ++ v2rp ++ sigp)
    else
      let vtp := pd.vt.map (fun x => 400 * x)
      let v2tp := pd.v2t.map (fun x => 200 * x)
      let v2rp := pd.v2r.map (fun x => 200 * x)
      let sigp := if args.disp then (pd.sig.getD []).map (fun x => 300 * x) else []
      let mixtail := if args.mix then
          [pd.Q.getD 0, (2 * pd.M.getD 0 - 1) * 1000, (2 * pd.lnV.getD 0 - 1) * 20] else []
      some ([incp, pap, pabp, vsysp] ++ centers ++ vtp ++ v2tp ++ v2rp ++ sigp ++ mixtail)

/-- The configuration gate of `nirvana.models.bisym.fit` after the bin edges
are set, followed by the method dispatch: with
`len(args.edges) - fixcent < 3` (Python bool arithmetic, so `fixcent`
counts as 1 when set) the galaxy is rejected with a `ValueError` before any
sampler is constructed; otherwise the fit proceeds to the requested method,
an unknown method name being the only later error. -/
def bisymFit (nedges : ℕ) (fixcent : Bool) (method : String) : Except String String :=
  if (nedges : ℤ) - (if fixcent then 1 else 0) < 3 then
    Except.error "Galaxy unsuitable: too few radial bins"
  else if method = "lsq" then Except.ok "lsq"
  else if method = "dynesty" then Except.ok "sampled"
  else Except.error "Choose a valid fitting method: dynesty or lsq"

/-- The posterior-shape check of `nirvana.plotting.fileprep`: the number of
radial bins is `(len(meds) - args.nglobs - 3*args.mix - fixcent) / 4`, and a
`ValueError` is raised unless that float is an integer.  The numerator is an
integer-valued float and division by 4 is exact in binary floating point, so
`float.is_integer` holds exactly when the numerator is divisible by 4,
modelled here over `ℤ`. -/
def fileprep_nbins (lenmeds nglobs : ℕ) (mix fixcent : Bool) : Except String ℤ :=
  let num : ℤ := (lenmeds : ℤ) - (nglobs : ℤ) - 3 * (if mix then 1 else 0)
      - (if fixcent then 1 else 0)
  if num % 4 = 0 then Except.ok (num / 4)
  else Except.error "Dynesty output array has a bad shape."

/-- A concrete instantiation of the abstract primitives, used by the
witnesses: any total functions will do for properties that hold for every
`Prims`. -/
def P0 : Prims :=
  ⟨0, id, id, fun x => 1 + x, id, id, fun q m s => m + s * q,
   fun x y _ _ => (x, y), fun v _ _ => v, fun _ _ s => s⟩

/-- Convenience constructor for concrete galaxy contexts used by witnesses
and counterexamples: data planes that a claim does not exercise stay empty,
the effective radius is 1 and the rebinning map is the identity. -/
def mkArgs (nglobs : ℕ) (edges : List ℚ) (disp mix fixcent : Bool) (weight : ℚ)
    (grid : List (ℚ × ℚ)) (vel : List ℚ) (vel_ivar : Option (List ℚ)) : Args :=
  ⟨nglobs, edges, disp, mix, fixcent, weight, 1, grid, vel, vel_ivar,
   [], none, none, none, none, false, [], id⟩

/-- Context for the packer round trip: 6 globals, dispersion and mixture. -/
def argsRT : Args := mkArgs 6 [0, 1, 2] true true false 10 [] [] none

/-- A parameter vector with the exact layout of `argsRT`. -/
def pRT : List ℚ :=
  [5, 10, 20, 30, 1, 2, 11, 12, 13, 21, 22, 23, 31, 32, 33, 41, 42, 43, 44, 7, 8, 9]

/-- The dictionary `unpack` produces from `pRT` over `argsRT`. -/
def dRT : ParamDict :=
  ⟨5, 10, 20, 30, 1, 2, [11, 12, 13], [21, 22, 23], [31, 32, 33],
   some [41, 42, 43, 44], some 7, some 8, some 9⟩

/-- Context with dispersion enabled and `fixcent` not set. -/
def argsSig : Args := mkArgs 4 [0, 1, 2] true false false 10 [] [] none

/-- A parameter vector with the exact layout of `argsSig`. -/
def pSig : List ℚ := [1, 2, 3, 4, 5, 6, 7, 8, 9, 10, 11, 12, 13, 14, 15, 16, 17]

/-- Context with dispersion, mixture and `fixcent` set. -/
def argsSigW : Args := mkArgs 4 [0, 1, 2] true true true 10 [] [] none

/-- A parameter vector with the exact layout of `argsSigW`. -/
def pSigW : List ℚ :=
  [1, 2, 3, 4, 5, 6, 7, 8, 9, 10, 11, 12, 13, 14, 15, 16, 17, 18, 19, 20]

/-- A one-pixel, one-bin mixture context with a concrete inverse variance of
4, used to evaluate the mixture likelihood at a concrete input. -/
def argsMixEval : Args := mkArgs 4 [1] false true false 1 [(1, 0)] [2] (some [4])

/-- A parameter vector for `argsMixEval`: zero globals, `vt = [1]`,
`Q = 1/2`, `M = 0`, `lnV = 0`. -/
def pMixEval : List ℚ := [0, 0, 0, 0, 1, 0, 0, 1/2, 0, 0]

/-- A two-point grid context for evaluating the bisymmetric field. -/
def argsBisym : Args := mkArgs 4 [0, 1] false false false 10 [(3, 4), (5, 6)] [] none

/-- A concrete parameter dictionary for `argsBisym`. -/
def pdBisym : ParamDict :=
  ⟨30, 45, 20, 7, 1, 2, [0, 50], [1, 2], [3, 4], none, none, none, none⟩

/-- A correlated-regime context (`weight = -1`) with dispersion. -/
def argsCorr : Args := mkArgs 4 [0, 1, 2] true false false (-1) [] [] none

/-- A parameter vector with the exact layout of `argsCorr`. -/
def pCorr : List ℚ := [1, 2, 3, 4, 5, 6, 7, 8, 9, 10, 11, 12, 13, 14, 15, 16, 17]

/-- A context combining the mixture flag with the correlated-prior weight. -/
def argsMixCorr : Args := mkArgs 4 [0, 1, 2] false true false (-1) [] [] none

/-- A parameter vector with the exact layout of `argsMixCorr`. -/
def pMixCorr : List ℚ := [1, 2, 3, 4, 5, 6, 7, 8, 9, 10, 11, 12, 13, 14, 15, 16]

/-! ## List utilities -/

theorem getD_of_append (l₁ l₂ : List ℚ) (n : ℕ) (d : ℚ) (h : n < l₁.length) :
    (l₁ ++ l₂).getD n d = l₁.getD n d := by
  induction l₁ generalizing n with
  | nil => simp at h
  | cons x xs ih =>
    cases n with
    | zero => rfl
    | succ n => exact ih n (by simpa using h)

theorem getD_add_drop (l : List ℚ) (a i : ℕ) (d : ℚ) :
    l.getD (a + i) d = (l.drop a).getD i d := by
  simp [List.getD_eq_getElem?_getD, List.getElem?_drop]

theorem getD_map_of_lt (f : ℚ → ℚ) (l : List ℚ) (i : ℕ) (d : ℚ) (h : i < l.length) :
    (l.map f).getD i d = f (l.getD i 0) := by
  simp [List.getD_eq_getElem?_getD, List.getElem?_map, List.getElem?_eq_getElem h]

theorem getD_set_self (l : List ℚ) (i : ℕ) (x d : ℚ) (h : i < l.length) :
    (l.set i x).getD i d = x := by
  simp [List.getD_eq_getElem?_getD, List.getElem?_set_self', h]

theorem getD_set_of_ne (l : List ℚ) (i j : ℕ) (x d : ℚ) (h : i ≠ j) :
    (l.set i x).getD j d = l.getD j d := by
  simp [List.getD_eq_getElem?_getD, List.getElem?_set_ne h]

theorem seg_length (l : List ℚ) (a n : ℕ) (h : a + n ≤ l.length) :
    (seg l a n).length = n := by
  simp only [seg, List.length_take, List.length_drop]
  omega

theorem seg_of_append (A B C : List ℚ) (a n : ℕ) (hA : A.length = a) (hB : B.length = n) :
    seg (A ++ (B ++ C)) a n = B := by
  simp only [seg, List.drop_left' hA, List.take_left' hB]

theorem zipWith4_length {α β γ δ ε : Type} (f : α → β → γ → δ → ε) :
    ∀ (as : List α) (bs : List β) (cs : List γ) (ds : List δ),
      (zipWith4 f as bs cs ds).length
        = min (min as.length bs.length) (min cs.length ds.length) := by
  intro as
  induction as with
  | nil => intro bs cs ds; simp [zipWith4]
  | cons a as ih =>
    intro bs cs ds
    cases bs with
    | nil => simp [zipWith4]
    | cons b bs =>
      cases cs with
      | nil => simp [zipWith4]
      | cons c cs =>
        cases ds with
        | nil => simp [zipWith4]
        | cons d ds =>
          simp only [zipWith4, List.length_cons, ih bs cs ds]
          omega

theorem zipWith4_getD {α β γ δ ε : Type} (f : α → β → γ → δ → ε)
    (da : α) (db : β) (dc : γ) (dd : δ) (de : ε) :
    ∀ (as : List α) (bs : List β) (cs : List γ) (ds : List δ) (i : ℕ),
      i < as.length → as.length = bs.length → as.length = cs.length →
      as.length = ds.length →
      (zipWith4 f as bs cs ds).getD i de
        = f (as.getD i da) (bs.getD i db) (cs.getD i dc) (ds.getD i dd) := by
  intro as
  induction as with
  | nil => intro bs cs ds i h; simp at h
  | cons a as ih =>
    intro bs cs ds i h hb hc hd
    cases bs with
    | nil => simp at hb
    | cons b bs =>
      cases cs with
      | nil => simp at hc
      | cons c cs =>
        cases ds with
        | nil => simp at hd
        | cons d ds =>
          cases i with
          | zero => rfl
          | succ i =>
            simpa [zipWith4] using
              ih bs cs ds i (by simpa using h) (by simpa using hb)
                (by simpa using hc) (by simpa using hd)

/-! ## The correlated walk of `ptform`: loop characterization -/

theorem corrStepDown_length (P : Prims) (a : List ℚ) (i : ℕ) :
    (corrStepDown P a i).length = a.length := by
  simp [corrStepDown]

theorem corrStepUp_length (P : Prims) (a : List ℚ) (i : ℕ) :
    (corrStepUp P a i).length = a.length := by
  simp [corrStepUp]

theorem downFold_succ (P : Prims) (k : ℕ) (a : List ℚ) :
    ((List.range (k + 1)).reverse).foldl (corrStepDown P) a
      = ((List.range k).reverse).foldl (corrStepDown P) (corrStepDown P a k) := by
  rw [List.range_succ, List.reverse_append]
  rfl

theorem downFold_length (P : Prims) :
    ∀ (k : ℕ) (a : List ℚ),
      (((List.range k).reverse).foldl (corrStepDown P) a).length = a.length := by
  intro k
  induction k with
  | zero => intro a; rfl
  | succ k ih =>
    intro a
    rw [downFold_succ]
    rw [ih (corrStepDown P a k), corrStepDown_length]

theorem downFold_getD_ge (P : Prims) :
    ∀ (k : ℕ) (a : List ℚ) (j : ℕ), k ≤ j →
      (((List.range k).reverse).foldl (corrStepDown P) a).getD j 0 = a.getD j 0 := by
  intro k
  induction k with
  | zero => intro a j _; rfl
  | succ k ih =>
    intro a j h
    rw [downFold_succ, ih (corrStepDown P a k) j (by omega)]
    exact getD_set_of_ne a k j _ 0 (by omega)

theorem downFold_getD_lt (P : Prims) :
    ∀ (k : ℕ) (a : List ℚ) (j : ℕ), k ≤ a.length → j < k →
      (((List.range k).reverse).foldl (corrStepDown P) a).getD j 0
        = P.normppf (a.getD j 0)
            ((((List.range k).reverse).foldl (corrStepDown P) a).getD (j + 1) 0) 50 := by
  intro k
  induction k with
  | zero => intro a j _ h; omega
  | succ k ih =>
    intro a j hk hj
    rw [downFold_succ]
    rcases Nat.lt_or_ge j k with hjk | hjk
    · rw [ih (corrStepDown P a k) j (by rw [corrStepDown_length]; omega) hjk]
      congr 1
      exact getD_set_of_ne a k j _ 0 (by omega)
    · have hj_eq : j = k := by omega
      subst hj_eq
      rw [downFold_getD_ge P j (corrStepDown P a j) j le_rfl]
      rw [downFold_getD_ge P j (corrStepDown P a j) (j + 1) (by omega)]
      rw [show corrStepDown P a j
            = a.set j (P.normppf (a.getD j 0) (a.getD (j + 1) 0) 50) from rfl]
      rw [getD_set_self a j _ 0 (by omega)]
      rw [getD_set_of_ne a j (j + 1) _ 0 (by omega)]

theorem upFold_nil (P : Prims) (m n : ℕ) (h : n ≤ m + 1) (a : List ℚ) :
    ((List.range n).drop (m + 1)).foldl (corrStepUp P) a = a := by
  rw [List.drop_eq_nil_of_le (by simpa using h)]
  rfl

theorem upFold_succ (P : Prims) (m n : ℕ) (h : m + 1 ≤ n) (a : List ℚ) :
    ((List.range (n + 1)).drop (m + 1)).foldl (corrStepUp P) a
      = corrStepUp P (((List.range n).drop (m + 1)).foldl (corrStepUp P) a) n := by
  rw [List.range_succ, List.drop_append_of_le_length (by simpa using h),
    List.foldl_append]
  rfl

theorem upFold_length (P : Prims) (m : ℕ) :
    ∀ (n : ℕ) (a : List ℚ),
      (((List.range n).drop (m + 1)).foldl (corrStepUp P) a).length = a.length := by
  intro n
  induction n with
  | zero => intro a; rfl
  | succ n ih =>
    intro a
    rcases Nat.lt_or_ge n (m + 1) with hn | hn
    · rw [upFold_nil P m (n + 1) (by omega)]
    · rw [upFold_succ P m n hn, corrStepUp_length, ih]

theorem upFold_getD_le (P : Prims) (m : ℕ) :
    ∀ (n : ℕ) (a : List ℚ) (j : ℕ), j ≤ m →
      (((List.range n).drop (m + 1)).foldl (corrStepUp P) a).getD j 0 = a.getD j 0 := by
  intro n
  induction n with
  | zero => intro a j _; rfl
  | succ n ih =>
    intro a j h
    rcases Nat.lt_or_ge n (m + 1) with hn | hn
    · rw [upFold_nil P m (n + 1) (by omega)]
    · rw [upFold_succ P m n hn]
      rw [show corrStepUp P (((List.range n).drop (m + 1)).foldl (corrStepUp P) a) n
            = (((List.range n).drop (m + 1)).foldl (corrStepUp P) a).set n _ from rfl]
      rw [getD_set_of_ne _ n j _ 0 (by omega)]
      exact ih a j h

theorem upFold_getD_ge (P : Prims) (m : ℕ) :
    ∀ (n : ℕ) (a : List ℚ) (j : ℕ), n ≤ j →
      (((List.range n).drop (m + 1)).foldl (corrStepUp P) a).getD j 0 = a.getD j 0 := by
  intro n
  induction n with
  | zero => intro a j _; rfl
  | succ n ih =>
    intro a j h
    rcases Nat.lt_or_ge n (m + 1) with hn | hn
    · rw [upFold_nil P m (n + 1) (by omega)]
    · rw [upFold_succ P m n hn]
      rw [show corrStepUp P (((List.range n).drop (m + 1)).foldl (corrStepUp P) a) n
            = (((List.range n).drop (m + 1)).foldl (corrStepUp P) a).set n _ from rfl]
      rw [getD_set_of_ne _ n j _ 0 (by omega)]
      exact ih a j (by omega)

theorem upFold_getD_mid (P : Prims) (m : ℕ) :
    ∀ (n : ℕ) (a : List ℚ) (j : ℕ), n ≤ a.length → m < j → j < n →
      (((List.range n).drop (m + 1)).foldl (corrStepUp P) a).getD j 0
        = P.normppf (a.getD j 0)
            ((((List.range n).drop (m + 1)).foldl (corrStepUp P) a).getD (j - 1) 0) 50 := by
  intro n
  induction n with
  | zero => intro a j _ _ h; omega
  | succ n ih =>
    intro a j hn hmj hjn
    rcases Nat.lt_or_ge n (m + 1) with hn' | hn'
    · omega
    · rw [upFold_succ P m n hn']
      rcases Nat.lt_or_ge j n with hjn' | hjn'
      · rw [show corrStepUp P (((List.range n).drop (m + 1)).foldl (corrStepUp P) a) n
              = (((List.range n).drop (m + 1)).foldl (corrStepUp P) a).set n _ from rfl]
        rw [getD_set_of_ne _ n j _ 0 (by omega)]
        rw [getD_set_of_ne _ n (j - 1) _ 0 (by omega)]
        exact ih a j (by omega) hmj hjn'
      · have hj_eq : j = n := by omega
        subst hj_eq
        rw [show corrStepUp P (((List.range j).drop (m + 1)).foldl (corrStepUp P) a) j
              = (((List.range j).drop (m + 1)).foldl (corrStepUp P) a).set j
                  (P.normppf
                    ((((List.range j).drop (m + 1)).foldl (corrStepUp P) a).getD j 0)
                    ((((List.range j).drop (m + 1)).foldl (corrStepUp P) a).getD (j - 1) 0)
                    50) from rfl]
        rw [getD_set_self _ j _ 0 (by rw [upFold_length]; omega)]
        rw [getD_set_of_ne _ j (j - 1) _ 0 (by omega)]
        rw [upFold_getD_ge P m j a j le_rfl]

theorem corrWalk_length (P : Prims) (v : List ℚ) :
    (corrWalk P v).length = v.length := by
  rw [corrWalk]
  rw [upFold_length, downFold_length]
  simp

theorem corrWalk_corrSpec (P : Prims) (v : List ℚ) : corrSpec P v (corrWalk P v) := by
  rcases Nat.eq_zero_or_pos v.length with h0 | hpos
  · have hv : v = [] := List.eq_nil_of_length_eq_zero h0
    subst hv
    refine ⟨rfl, by simp [corrWalk], ?_, ?_⟩ <;> intro i hi <;> exact absurd hi (by simp)
  · have hmid : v.length / 2 < v.length := Nat.div_lt_self hpos (by omega)
    set mid := v.length / 2 with hmid_def
    set a0 := v.set mid (400 * v.getD mid 0) with ha0
    set a1 := ((List.range mid).reverse).foldl (corrStepDown P) a0 with ha1
    set out := ((List.range v.length).drop (mid + 1)).foldl (corrStepUp P) a1 with hout
    have hlen0 : a0.length = v.length := by simp [ha0]
    have hlen1 : a1.length = a0.length := downFold_length P mid a0
    have hwalk : corrWalk P v = out := rfl
    rw [hwalk]
    refine ⟨by rw [hout, upFold_length, hlen1, hlen0], ?_, ?_, ?_⟩
    · -- middle bin
      rw [hout, upFold_getD_le P mid v.length a1 mid le_rfl,
        ha1, downFold_getD_ge P mid a0 mid le_rfl, ha0,
        getD_set_self v mid _ 0 hmid]
    · -- downward recurrence
      intro i hi
      rw [hout, upFold_getD_le P mid v.length a1 i (by omega),
        upFold_getD_le P mid v.length a1 (i + 1) (by omega)]
      rw [ha1, downFold_getD_lt P mid a0 i (by omega) hi]
      congr 1
      rw [ha0, getD_set_of_ne v mid i _ 0 (by omega)]
    · -- upward recurrence
      intro i hilen hmi
      rw [hout, upFold_getD_mid P mid v.length a1 i (by omega) hmi hilen]
      congr 1
      rw [ha1, downFold_getD_ge P mid a0 i (by omega),
        ha0, getD_set_of_ne v mid i _ 0 (by omega)]

/-! ## Characterizing `unpack` on a vector of the expected layout -/

theorem unpack_full (params : List ℚ) (args : Args)
    (h46 : args.nglobs = 4 ∨ args.nglobs = 6)
    (hlen : expectedLen args ≤ params.length) :
    unpack params args none = some
      ⟨params.getD 0 0, params.getD 1 0, params.getD 2 0, params.getD 3 0,
       (if args.nglobs = 6 then params.getD 4 0 else 0),
       (if args.nglobs = 6 then params.getD 5 0 else 0),
       seg params args.nglobs args.edges.length,
       seg params (args.nglobs + args.edges.length) args.edges.length,
       seg params (args.nglobs + 2 * args.edges.length) args.edges.length,
       (if args.disp then
          some (seg params (args.nglobs + 3 * args.edges.length) (args.edges.length + 1))
        else none),
       (if args.mix then some (params.getD (unpackEnd args) 0) else none),
       (if args.mix then some (params.getD (unpackEnd args + 1) 0) else none),
       (if args.mix then some (params.getD (unpackEnd args + 2) 0) else none)⟩ := by
  have e1 : ((4 : ℕ) = 4) = True := by simp
  have e2 : ((4 : ℕ) = 6) = False := by simp
  have e3 : ((6 : ℕ) = 4) = False := by simp
  have e4 : ((6 : ℕ) = 6) = True := by simp
  have e5 : (false = true) = False := by simp
  have e6 : (true = true) = True := by simp
  rw [expectedLen] at hlen
  rw [unpack, unpackEnd]
  simp only [Option.getD_none]
  obtain ⟨ng, edges, disp, mix, fixcent, weight, reff, grid, vel, vel_ivar, sig_phys2,
    sig_phys2_ivar, vel_mask, sig_mask, bordermask, beam, sb, binf⟩ := args
  dsimp only at h46 hlen ⊢
  rcases h46 with h | h <;> subst h <;> cases disp <;> cases mix <;>
    simp only [e1, e2, e3, e4, e5, e6, if_true, if_false] at hlen ⊢ <;>
    split_ifs <;>
    first
      | rfl
      | (exfalso; omega)

theorem if_true_eq {α : Sort _} (a b : α) : (if true = true then a else b) = a := rfl

theorem if_false_eq {α : Sort _} (a b : α) : (if false = true then a else b) = b := rfl

theorem if_4_eq_4 {α : Sort _} (a b : α) : (if (4 : ℕ) = 4 then a else b) = a := rfl

theorem if_4_eq_6 {α : Sort _} (a b : α) : (if (4 : ℕ) = 6 then a else b) = b := rfl

theorem if_6_eq_4 {α : Sort _} (a b : α) : (if (6 : ℕ) = 4 then a else b) = b := rfl

theorem if_6_eq_6 {α : Sort _} (a b : α) : (if (6 : ℕ) = 6 then a else b) = a := rfl

theorem seg_append_shift (A L : List ℚ) (k n : ℕ) :
    seg (A ++ L) (A.length + k) n = seg L k n := by
  simp only [seg]
  congr 1
  simp [List.drop_append_of_le_length]

theorem getD_append_shift (A M : List ℚ) (i : ℕ) (d : ℚ) :
    (A ++ M).getD (A.length + i) d = M.getD i d := by
  rw [getD_add_drop (A ++ M) A.length i d, List.drop_left]

theorem seg_blocks1 (G B R : List ℚ) (n j : ℕ) (hG : G.length = n) (hB : B.length = j) :
    seg (G ++ (B ++ R)) n j = B :=
  seg_of_append G B R n j hG hB

theorem seg_blocks2 (G A B R : List ℚ) (n j : ℕ) (hG : G.length = n)
    (hA : A.length = j) (hB : B.length = j) :
    seg (G ++ (A ++ (B ++ R))) (n + j) j = B := by
  have h : n + j = G.length + A.length := by rw [hG, hA]
  rw [h, seg_append_shift]
  exact seg_of_append A B R A.length j rfl hB

theorem seg_blocks3 (G A B C R : List ℚ) (n j : ℕ) (hG : G.length = n)
    (hA : A.length = j) (hB : B.length = j) (hC : C.length = j) :
    seg (G ++ (A ++ (B ++ (C ++ R)))) (n + 2 * j) j = C := by
  have h : n + 2 * j = G.length + (A.length + B.length) := by rw [hG, hA, hB]; ring
  rw [h, seg_append_shift, ← Nat.add_zero (A.length + B.length), Nat.add_assoc,
    seg_append_shift]
  have h2 : B.length + 0 = B.length := rfl
  rw [h2]
  exact seg_of_append B C R B.length j rfl hC

theorem seg_blocks4 (G A B C S R : List ℚ) (n j m : ℕ) (hG : G.length = n)
    (hA : A.length = j) (hB : B.length = j) (hC : C.length = j) (hS : S.length = m) :
    seg (G ++ (A ++ (B ++ (C ++ (S ++ R))))) (n + 3 * j) m = S := by
  have h : n + 3 * j = G.length + (A.length + (B.length + (C.length + 0))) := by
    rw [hG, hA, hB, hC]; ring
  rw [h, seg_append_shift, seg_append_shift, seg_append_shift, seg_append_shift]
  show ((S ++ R).drop 0).take m = S
  rw [List.drop_zero]
  exact List.take_left' hS

theorem getD_blocks_mix (G A B C S M : List ℚ) (n j sl i : ℕ) (d : ℚ)
    (hG : G.length = n) (hA : A.length = j) (hB : B.length = j) (hC : C.length = j)
    (hS : S.length = sl) :
    (G ++ (A ++ (B ++ (C ++ (S ++ M))))).getD (n + 3 * j + sl + i) d = M.getD i d := by
  have h : n + 3 * j + sl + i
      = G.length + (A.length + (B.length + (C.length + (S.length + i)))) := by
    rw [hG, hA, hB, hC, hS]; ring
  rw [h, getD_append_shift, getD_append_shift, getD_append_shift, getD_append_shift,
    getD_append_shift]

theorem pack_length (d : ParamDict) (args : Args)
    (h46 : args.nglobs = 4 ∨ args.nglobs = 6)
    (hvt : d.vt.length = args.edges.length)
    (hv2t : d.v2t.length = args.edges.length)
    (hv2r : d.v2r.length = args.edges.length)
    (hsig : args.disp = true → (d.sig.getD []).length = args.edges.length + 1) :
    (pack d args).length = expectedLen args := by
  rw [pack, expectedLen]
  rcases h46 with h | h <;> rw [h] <;> cases hd : args.disp <;> cases hm : args.mix <;>
    simp only [if_4_eq_6, if_6_eq_6, if_true_eq, if_false_eq, if_true, if_false,
      List.length_append, List.length_cons, List.length_nil, hvt, hv2t, hv2r] <;>
    first
      | omega
      | (rw [hsig hd]; omega)

theorem unpack_nglobs (params : List ℚ) (args : Args) (d : ParamDict)
    (h : unpack params args none = some d) : args.nglobs = 4 ∨ args.nglobs = 6 := by
  by_contra hn
  push_neg at hn
  rw [unpack] at h
  rw [if_neg hn.1, if_neg hn.2] at h
  exact Option.noConfusion h

theorem getD_blocks_mix0 (G A B C S M : List ℚ) (n j sl : ℕ) (d : ℚ)
    (hG : G.length = n) (hA : A.length = j) (hB : B.length = j) (hC : C.length = j)
    (hS : S.length = sl) :
    (G ++ (A ++ (B ++ (C ++ (S ++ M))))).getD (n + 3 * j + sl) d = M.getD 0 d := by
  have h := getD_blocks_mix G A B C S M n j sl 0 d hG hA hB hC hS
  simpa using h

theorem unpack_pack_general (args : Args) (h46 : args.nglobs = 4 ∨ args.nglobs = 6)
    (i p pb vs xc yc : ℚ) (vt v2t v2r sg : List ℚ) (q m lnv : ℚ)
    (hvt : vt.length = args.edges.length) (hv2t : v2t.length = args.edges.length)
    (hv2r : v2r.length = args.edges.length)
    (hsg : args.disp = true → sg.length = args.edges.length + 1)
    (hxc : args.nglobs = 4 → xc = 0) (hyc : args.nglobs = 4 → yc = 0) :
    unpack (pack ⟨i, p, pb, vs, xc, yc, vt, v2t, v2r,
        (if args.disp then some sg else none),
        (if args.mix then some q else none), (if args.mix then some m else none),
        (if args.mix then some lnv else none)⟩ args) args none
      = some ⟨i, p, pb, vs, xc, yc, vt, v2t, v2r,
        (if args.disp then some sg else none),
        (if args.mix then some q else none), (if args.mix then some m else none),
        (if args.mix then some lnv else none)⟩ := by
  have hsgX : args.disp = true →
      ((ParamDict.sig ⟨i, p, pb, vs, xc, yc, vt, v2t, v2r,
          (if args.disp then some sg else none),
          (if args.mix then some q else none), (if args.mix then some m else none),
          (if args.mix then some lnv else none)⟩).getD []).length
        = args.edges.length + 1 := by
    intro hd
    dsimp only
    rw [if_pos hd]
    exact hsg hd
  have hplen := pack_length _ args h46 hvt hv2t hv2r hsgX
  rw [unpack_full _ args h46 (le_of_eq hplen.symm)]
  rcases h46 with h | h <;> cases hd : args.disp <;> cases hm : args.mix <;>
    simp only [pack, unpackEnd, h, hd, hm, if_4_eq_4, if_4_eq_6, if_6_eq_4, if_6_eq_6,
      if_true_eq, if_false_eq, if_true, if_false, Option.getD_some, List.append_assoc,
      Option.some.injEq, ParamDict.mk.injEq] <;>
    (repeat' apply And.intro) <;>
    first
      | trivial
      | rfl
      | exact (hxc h).symm
      | exact (hyc h).symm
      | exact seg_blocks1 _ _ _ _ _ rfl hvt
      | exact seg_blocks2 _ _ _ _ _ _ rfl hvt hv2t
      | exact seg_blocks3 _ _ _ _ _ _ _ rfl hvt hv2t hv2r
      | exact seg_blocks4 _ _ _ _ _ _ _ _ _ rfl hvt hv2t hv2r (hsg hd)
      | exact congrArg some
          (seg_blocks4 _ _ _ _ _ _ _ _ _ rfl hvt hv2t hv2r (hsg hd))
      | exact getD_blocks_mix0 _ _ _ _ _ _ _ _ _ _ rfl hvt hv2t hv2r (hsg hd)
      | exact getD_blocks_mix0 _ _ _ _ _ _ _ _ _ _ rfl hvt hv2t hv2r rfl
      | exact getD_blocks_mix _ _ _ _ _ _ _ _ _ _ _ rfl hvt hv2t hv2r (hsg hd)
      | exact getD_blocks_mix _ _ _ _ _ _ _ _ _ _ _ rfl hvt hv2t hv2r rfl

/-! ## Claim theorems -/

/-- Claim C1: packer round trip.  For every context and every parameter
vector of the layout its flags dictate, the dictionary `d` that `unpack`
produces satisfies `unpack (pack d, context) = d`: packing `d` into a flat
vector with the spec's fixed layout and unpacking it again restores `d`
exactly. -/
theorem unpack_pack_roundtrip (params : List ℚ) (args : Args) (d : ParamDict)
    (hlen : params.length = expectedLen args)
    (h : unpack params args none = some d) :
    unpack (pack d args) args none = some d := by
  have h46 := unpack_nglobs params args d h
  rw [unpack_full params args h46 (le_of_eq hlen.symm), Option.some.injEq] at h
  subst h
  have hvt : (seg params args.nglobs args.edges.length).length = args.edges.length :=
    seg_length _ _ _ (by rw [hlen, expectedLen]; split_ifs <;> omega)
  have hv2t : (seg params (args.nglobs + args.edges.length) args.edges.length).length
      = args.edges.length :=
    seg_length _ _ _ (by rw [hlen, expectedLen]; split_ifs <;> omega)
  have hv2r : (seg params (args.nglobs + 2 * args.edges.length) args.edges.length).length
      = args.edges.length :=
    seg_length _ _ _ (by rw [hlen, expectedLen]; split_ifs <;> omega)
  have hsg : args.disp = true →
      (seg params (args.nglobs + 3 * args.edges.length) (args.edges.length + 1)).length
        = args.edges.length + 1 := by
    intro hd
    exact seg_length _ _ _ (by rw [hlen, expectedLen, if_pos hd]; split_ifs <;> omega)
  exact unpack_pack_general args h46 _ _ _ _ _ _ _ _ _ _ _ _ _ hvt hv2t hv2r hsg
    (fun h4 => by rw [h4]; exact if_4_eq_6 _ _)
    (fun h4 => by rw [h4]; exact if_4_eq_6 _ _)

/-- Witness for claim C1: the round trip this theorem claims, evaluated at
the concrete context `argsRT` (6 globals, dispersion, mixture, three bins)
and vector `pRT`. -/
theorem unpack_pack_roundtrip_witness :
    pRT.length = expectedLen argsRT ∧ unpack pRT argsRT none = some dRT ∧
      unpack (pack dRT argsRT) argsRT none = some dRT :=
  ⟨by decide, by decide, unpack_pack_roundtrip pRT argsRT dRT (by decide) (by decide)⟩

/-- Claim C2, counterexample to the claim as stated: in the context
`argsSig` (dispersion enabled, `fixcent` NOT set, three radial bins) the
dispersion block `unpack` slices out has FOUR entries, one more than the
number of radial bins, although the claim says there is no extra entry when
`fixcent` is not set. -/
theorem sig_block_fixcent_counterexample :
    argsSig.fixcent = false ∧ argsSig.edges.length = 3 ∧
      (unpack pSig argsSig none).map (fun d => (d.sig.getD []).length) = some 4 :=
  ⟨rfl, rfl, by decide⟩

/-- Claim C2 (amended): flat layout under dispersion fitting.  For every
context with 4 or 6 globals and dispersion enabled, and every parameter
vector of the expected layout length, `unpack` slices out, in order, three
velocity blocks of one entry per radial bin starting right after the
globals, then a dispersion block of one entry per radial bin plus one extra
entry unconditionally (`sigjump = jump + 1` in the source), regardless of
the `fixcent` flag, and then reads Q, M, lnV when the mixture is enabled. -/
theorem sig_block_layout (params : List ℚ) (args : Args)
    (h46 : args.nglobs = 4 ∨ args.nglobs = 6) (hd : args.disp = true)
    (hlen : params.length = expectedLen args) :
    ∃ d, unpack params args none = some d ∧
      d.vt = seg params args.nglobs args.edges.length ∧
      d.v2t = seg params (args.nglobs + args.edges.length) args.edges.length ∧
      d.v2r = seg params (args.nglobs + 2 * args.edges.length) args.edges.length ∧
      d.sig = some (seg params (args.nglobs + 3 * args.edges.length)
        (args.edges.length + 1)) ∧
      (d.sig.getD []).length = args.edges.length + 1 ∧
      (args.mix = true →
        d.Q = some (params.getD (unpackEnd args) 0) ∧
        d.M = some (params.getD (unpackEnd args + 1) 0) ∧
        d.lnV = some (params.getD (unpackEnd args + 2) 0)) := by
  refine ⟨_, unpack_full params args h46 (le_of_eq hlen.symm), ?_⟩
  dsimp only
  rw [if_pos hd]
  refine ⟨rfl, rfl, rfl, rfl, ?_, ?_⟩
  · show ((some (seg params (args.nglobs + 3 * args.edges.length)
      (args.edges.length + 1))).getD []).length = args.edges.length + 1
    rw [Option.getD_some]
    exact seg_length _ _ _ (by rw [hlen, expectedLen, if_pos hd]; split_ifs <;> omega)
  · intro hm
    rw [if_pos hm, if_pos hm, if_pos hm]
    exact ⟨rfl, rfl, rfl⟩

/-- Witness for claim C2 at the concrete context `argsSigW` (4 globals,
dispersion, mixture, `fixcent` SET, three radial bins): the dispersion
block still has `3 + 1` entries. -/
theorem sig_block_layout_witness :
    (argsSigW.nglobs = 4 ∨ argsSigW.nglobs = 6) ∧ argsSigW.disp = true ∧
      pSigW.length = expectedLen argsSigW ∧
      (∃ d, unpack pSigW argsSigW none = some d ∧
        d.vt = seg pSigW argsSigW.nglobs argsSigW.edges.length ∧
        d.v2t = seg pSigW (argsSigW.nglobs + argsSigW.edges.length)
          argsSigW.edges.length ∧
        d.v2r = seg pSigW (argsSigW.nglobs + 2 * argsSigW.edges.length)
          argsSigW.edges.length ∧
        d.sig = some (seg pSigW (argsSigW.nglobs + 3 * argsSigW.edges.length)
          (argsSigW.edges.length + 1)) ∧
        (d.sig.getD []).length = argsSigW.edges.length + 1 ∧
        (argsSigW.mix = true →
          d.Q = some (pSigW.getD (unpackEnd argsSigW) 0) ∧
          d.M = some (pSigW.getD (unpackEnd argsSigW + 1) 0) ∧
          d.lnV = some (pSigW.getD (unpackEnd argsSigW + 2) 0))) :=
  ⟨Or.inl rfl, rfl, by decide,
    sig_block_layout pSigW argsSigW (Or.inl rfl) rfl (by decide)⟩

/-- Claim C10: in `nirvana.fitting.ptform` the mixture parameters `Qp`,
`Mp`, `lnVp` are only assigned in the non-correlated branch, yet the final
repacking appends them whenever `args.mix` is set; with the correlated
weight -1 and the mixture flag both on, the prior transform therefore fails
(`NameError`) on every input vector, so the mixture likelihood and the
correlated-prior regime can never be combined through this function. -/
theorem ptform_mix_correlated_fails (P : Prims) (params : List ℚ) (args : Args)
    (hm : args.mix = true) (hw : args.weight = -1) :
    ptform P params args = none := by
  rw [ptform]
  cases h : unpack params args none with
  | none => rfl
  | some pd =>
    dsimp only
    rw [if_pos hw, if_pos hm]

/-- Witness for claim C10 at the concrete context `argsMixCorr` and the
empty input vector. -/
theorem ptform_mix_correlated_fails_witness :
    argsMixCorr.mix = true ∧ argsMixCorr.weight = -1 ∧
      ptform P0 [] argsMixCorr = none :=
  ⟨rfl, rfl, ptform_mix_correlated_fails P0 [] argsMixCorr rfl rfl⟩

theorem seg_blocks5 (G A B C S : List ℚ) (n j m : ℕ) (hG : G.length = n)
    (hA : A.length = j) (hB : B.length = j) (hC : C.length = j) (hS : S.length = m) :
    seg (G ++ (A ++ (B ++ (C ++ S)))) (n + 3 * j) m = S := by
  have h : n + 3 * j = G.length + (A.length + (B.length + (C.length + 0))) := by
    rw [hG, hA, hB, hC]; ring
  rw [h, seg_append_shift, seg_append_shift, seg_append_shift, seg_append_shift]
  show (S.drop 0).take m = S
  rw [List.drop_zero]
  exact List.take_of_length_le (le_of_eq hS)

theorem ptform_corr_eq (P : Prims) (params : List ℚ) (args : Args)
    (h46 : args.nglobs = 4 ∨ args.nglobs = 6)
    (hlen : params.length = expectedLen args)
    (hw : args.weight = -1) (hm : args.mix = false) :
    ptform P params args = some
      ((if args.nglobs = 6 then
          [85 * params.getD 0 0, 360 * params.getD 1 0, 180 * params.getD 2 0,
           (2 * params.getD 3 0 - 1) * 100,
           (2 * params.getD 4 0 - 1) * 20, (2 * params.getD 5 0 - 1) * 20]
        else
          [85 * params.getD 0 0, 360 * params.getD 1 0, 180 * params.getD 2 0,
           (2 * params.getD 3 0 - 1) * 100])
       ++ (corrWalk P (seg params args.nglobs args.edges.length)
       ++ (corrWalk P (seg params (args.nglobs + args.edges.length) args.edges.length)
       ++ (corrWalk P
            (seg params (args.nglobs + 2 * args.edges.length) args.edges.length)
       ++ (if args.disp then
            corrWalk P (seg params (args.nglobs + 3 * args.edges.length)
              (args.edges.length + 1))
          else []))))) := by
  rw [ptform, unpack_full params args h46 (le_of_eq hlen.symm)]
  dsimp only
  rw [if_pos hw, if_neg (by rw [hm]; exact Bool.false_ne_true)]
  rcases h46 with h | h <;> rw [h] <;> cases hd : args.disp <;>
    simp only [if_4_eq_6, if_6_eq_6, if_true_eq, if_false_eq, if_true, if_false,
      Option.getD_some, List.append_assoc, List.nil_append] <;> rfl

theorem ptform_unif_eq (P : Prims) (params : List ℚ) (args : Args)
    (h46 : args.nglobs = 4 ∨ args.nglobs = 6)
    (hlen : params.length = expectedLen args)
    (hw : ¬args.weight = -1) :
    ptform P params args = some
      ((if args.nglobs = 6 then
          [85 * params.getD 0 0, 360 * params.getD 1 0, 180 * params.getD 2 0,
           (2 * params.getD 3 0 - 1) * 100,
           (2 * params.getD 4 0 - 1) * 20, (2 * params.getD 5 0 - 1) * 20]
        else
          [85 * params.getD 0 0, 360 * params.getD 1 0, 180 * params.getD 2 0,
           (2 * params.getD 3 0 - 1) * 100])
       ++ ((seg params args.nglobs args.edges.length).map (fun x => 400 * x)
       ++ ((seg params (args.nglobs + args.edges.length) args.edges.length).map
            (fun x => 200 * x)
       ++ ((seg params (args.nglobs + 2 * args.edges.length) args.edges.length).map
            (fun x => 200 * x)
       ++ ((if args.disp then
            (seg params (args.nglobs + 3 * args.edges.length)
              (args.edges.length + 1)).map (fun x => 300 * x)
          else [])
       ++ (if args.mix then
            [params.getD (unpackEnd args) 0,
             (2 * params.getD (unpackEnd args + 1) 0 - 1) * 1000,
             (2 * params.getD (unpackEnd args + 2) 0 - 1) * 20]
          else [])))))) := by
  rw [ptform, unpack_full params args h46 (le_of_eq hlen.symm)]
  dsimp only
  rw [if_neg hw]
  rcases h46 with h | h <;> rw [h] <;> cases hd : args.disp <;> cases hm : args.mix <;>
    simp only [if_4_eq_6, if_6_eq_6, if_true_eq, if_false_eq, if_true, if_false,
      Option.getD_some, List.append_assoc, List.nil_append] <;> rfl

/-- Claim C6 counterexample to the claim as stated: in the context
`argsMixCorr`, whose flags combine the mixture with the correlated-prior
weight -1, the prior transform fails on an input vector of the exact layout
length instead of returning a vector of that length. -/
theorem ptform_length_counterexample :
    pMixCorr.length = expectedLen argsMixCorr ∧
      ptform P0 pMixCorr argsMixCorr = none :=
  ⟨by decide, by decide⟩

/-- Claim C6 (amended): prior-transform length preservation.  For every
context with 4 or 6 globals whose flags do not combine the mixture with the
correlated-prior weight -1 (a combination on which `ptform` raises, see the
counterexample), and every unit-cube input vector laid out according to the
context's flags, `ptform` returns a vector of exactly the input's length. -/
theorem ptform_length_preserved (P : Prims) (params : List ℚ) (args : Args)
    (h46 : args.nglobs = 4 ∨ args.nglobs = 6)
    (hlen : params.length = expectedLen args)
    (hnc : ¬(args.mix = true ∧ args.weight = -1)) :
    ∃ out, ptform P params args = some out ∧ out.length = params.length := by
  have hvt := seg_length params args.nglobs args.edges.length
    (by rw [hlen, expectedLen]; split_ifs <;> omega)
  have hv2t := seg_length params (args.nglobs + args.edges.length) args.edges.length
    (by rw [hlen, expectedLen]; split_ifs <;> omega)
  have hv2r := seg_length params (args.nglobs + 2 * args.edges.length)
    args.edges.length (by rw [hlen, expectedLen]; split_ifs <;> omega)
  have hsg : args.disp = true →
      (seg params (args.nglobs + 3 * args.edges.length)
        (args.edges.length + 1)).length = args.edges.length + 1 := fun hd =>
    seg_length _ _ _ (by rw [hlen, expectedLen, if_pos hd]; split_ifs <;> omega)
  by_cases hw : args.weight = -1
  · have hm : args.mix = false := by
      cases hmix : args.mix
      · rfl
      · exact absurd ⟨hmix, hw⟩ hnc
    refine ⟨_, ptform_corr_eq P params args h46 hlen hw hm, ?_⟩
    rw [hlen, expectedLen]
    rcases h46 with h | h <;> rw [h] at hvt hv2t hv2r hsg ⊢ <;>
      cases hd : args.disp <;>
      simp only [List.length_append, corrWalk_length, hvt, hv2t, hv2r, hm,
        if_4_eq_6, if_6_eq_6, if_true_eq, if_false_eq, if_true, if_false,
        List.length_cons, List.length_nil] <;>
      first
        | omega
        | (rw [hsg hd]; omega)
  · refine ⟨_, ptform_unif_eq P params args h46 hlen hw, ?_⟩
    rw [hlen, expectedLen]
    rcases h46 with h | h <;> rw [h] at hvt hv2t hv2r hsg ⊢ <;>
      cases hd : args.disp <;> cases hm : args.mix <;>
      simp only [List.length_append, List.length_map, hvt, hv2t, hv2r,
        if_4_eq_6, if_6_eq_6, if_true_eq, if_false_eq, if_true, if_false,
        List.length_cons, List.length_nil] <;>
      first
        | omega
        | (rw [hsg hd]; omega)

/-- Witness for claim C6 at the concrete context `argsRT` (6 globals,
dispersion, mixture, uniform weight 10) and vector `pRT`. -/
theorem ptform_length_preserved_witness :
    (argsRT.nglobs = 4 ∨ argsRT.nglobs = 6) ∧ pRT.length = expectedLen argsRT ∧
      ¬(argsRT.mix = true ∧ argsRT.weight = -1) ∧
      ∃ out, ptform P0 pRT argsRT = some out ∧ out.length = pRT.length :=
  ⟨Or.inr rfl, by decide, by decide,
    ptform_length_preserved P0 pRT argsRT (Or.inr rfl) (by decide) (by decide)⟩

/-- Claim C5: the correlated-prior regime of `nirvana.fitting.ptform`.
Whenever the smoothness weight equals -1 (with the mixture flag off, since
the transform faults otherwise — see C10), each per-bin velocity-profile
block of the output — vt, v2t, v2r, and sig when dispersion is fitted —
satisfies `corrSpec` against the corresponding input block: the middle bin
(index length/2) is drawn from the wide uniform prior scaled by 400, and
each bin outward from there, in both directions, is the Gaussian inverse
CDF of the input bin centred on the previously drawn adjacent bin with
standard deviation 50. -/
theorem ptform_correlated_walk (P : Prims) (params : List ℚ) (args : Args)
    (h46 : args.nglobs = 4 ∨ args.nglobs = 6)
    (hlen : params.length = expectedLen args)
    (hw : args.weight = -1) (hm : args.mix = false) :
    ∃ out, ptform P params args = some out ∧
      corrSpec P (seg params args.nglobs args.edges.length)
        (seg out args.nglobs args.edges.length) ∧
      corrSpec P (seg params (args.nglobs + args.edges.length) args.edges.length)
        (seg out (args.nglobs + args.edges.length) args.edges.length) ∧
      corrSpec P (seg params (args.nglobs + 2 * args.edges.length) args.edges.length)
        (seg out (args.nglobs + 2 * args.edges.length) args.edges.length) ∧
      (args.disp = true →
        corrSpec P (seg params (args.nglobs + 3 * args.edges.length)
            (args.edges.length + 1))
          (seg out (args.nglobs + 3 * args.edges.length)
            (args.edges.length + 1))) := by
  have hvt := seg_length params args.nglobs args.edges.length
    (by rw [hlen, expectedLen]; split_ifs <;> omega)
  have hv2t := seg_length params (args.nglobs + args.edges.length) args.edges.length
    (by rw [hlen, expectedLen]; split_ifs <;> omega)
  have hv2r := seg_length params (args.nglobs + 2 * args.edges.length)
    args.edges.length (by rw [hlen, expectedLen]; split_ifs <;> omega)
  have hsg : args.disp = true →
      (seg params (args.nglobs + 3 * args.edges.length)
        (args.edges.length + 1)).length = args.edges.length + 1 := fun hd =>
    seg_length _ _ _ (by rw [hlen, expectedLen, if_pos hd]; split_ifs <;> omega)
  have hG : (if args.nglobs = 6 then
      [85 * params.getD 0 0, 360 * params.getD 1 0, 180 * params.getD 2 0,
       (2 * params.getD 3 0 - 1) * 100,
       (2 * params.getD 4 0 - 1) * 20, (2 * params.getD 5 0 - 1) * 20]
    else
      [85 * params.getD 0 0, 360 * params.getD 1 0, 180 * params.getD 2 0,
       (2 * params.getD 3 0 - 1) * 100]).length = args.nglobs := by
    rcases h46 with h | h <;> rw [h] <;> rfl
  have hW1 : (corrWalk P (seg params args.nglobs args.edges.length)).length
      = args.edges.length := by rw [corrWalk_length]; exact hvt
  have hW2 : (corrWalk P (seg params (args.nglobs + args.edges.length)
      args.edges.length)).length = args.edges.length := by
    rw [corrWalk_length]; exact hv2t
  have hW3 : (corrWalk P (seg params (args.nglobs + 2 * args.edges.length)
      args.edges.length)).length = args.edges.length := by
    rw [corrWalk_length]; exact hv2r
  refine ⟨_, ptform_corr_eq P params args h46 hlen hw hm, ?_, ?_, ?_, ?_⟩
  · rw [seg_blocks1 _ _ _ _ _ hG hW1]
    exact corrWalk_corrSpec P _
  · rw [seg_blocks2 _ _ _ _ _ _ hG hW1 hW2]
    exact corrWalk_corrSpec P _
  · rw [seg_blocks3 _ _ _ _ _ _ _ hG hW1 hW2 hW3]
    exact corrWalk_corrSpec P _
  · intro hd
    have hW4 : (corrWalk P (seg params (args.nglobs + 3 * args.edges.length)
        (args.edges.length + 1))).length = args.edges.length + 1 := by
      rw [corrWalk_length]; exact hsg hd
    rw [if_pos hd, seg_blocks5 _ _ _ _ _ _ _ _ hG hW1 hW2 hW3 hW4]
    exact corrWalk_corrSpec P _

/-- Witness for claim C5 at the concrete correlated context `argsCorr`
(4 globals, dispersion, weight -1, three radial bins) and vector `pCorr`. -/
theorem ptform_correlated_walk_witness :
    (argsCorr.nglobs = 4 ∨ argsCorr.nglobs = 6) ∧
      pCorr.length = expectedLen argsCorr ∧ argsCorr.weight = -1 ∧
      argsCorr.mix = false ∧
      (∃ out, ptform P0 pCorr argsCorr = some out ∧
        corrSpec P0 (seg pCorr argsCorr.nglobs argsCorr.edges.length)
          (seg out argsCorr.nglobs argsCorr.edges.length) ∧
        corrSpec P0 (seg pCorr (argsCorr.nglobs + argsCorr.edges.length)
            argsCorr.edges.length)
          (seg out (argsCorr.nglobs + argsCorr.edges.length)
            argsCorr.edges.length) ∧
        corrSpec P0 (seg pCorr (argsCorr.nglobs + 2 * argsCorr.edges.length)
            argsCorr.edges.length)
          (seg out (argsCorr.nglobs + 2 * argsCorr.edges.length)
            argsCorr.edges.length) ∧
        (argsCorr.disp = true →
          corrSpec P0 (seg pCorr (argsCorr.nglobs + 3 * argsCorr.edges.length)
              (argsCorr.edges.length + 1))
            (seg out (argsCorr.nglobs + 3 * argsCorr.edges.length)
              (argsCorr.edges.length + 1)))) :=
  ⟨Or.inl rfl, by decide, rfl, rfl,
    ptform_correlated_walk P0 pCorr argsCorr (Or.inl rfl) (by decide) rfl rfl⟩

theorem getD_map_of_lt' {α β : Type} (f : α → β) (l : List α) (i : ℕ) (da : α)
    (db : β) (h : i < l.length) : (l.map f).getD i db = f (l.getD i da) := by
  simp [List.getD_eq_getElem?_getD, List.getElem?_map, List.getElem?_eq_getElem h]

theorem zipWith4_map_getD {α : Type} (f : ℚ → ℚ → ℚ → ℚ → ℚ) (g1 g2 g3 g4 : α → ℚ)
    (l : List α) (i : ℕ) (da : α) (h : i < l.length) :
    (zipWith4 f (l.map g1) (l.map g2) (l.map g3) (l.map g4)).getD i 0
      = f (g1 (l.getD i da)) (g2 (l.getD i da)) (g3 (l.getD i da))
          (g4 (l.getD i da)) := by
  rw [zipWith4_getD f (g1 da) (g2 da) (g3 da) (g4 da) 0 _ _ _ _ i
    (by simpa using h) (by simp) (by simp) (by simp)]
  rw [getD_map_of_lt' g1 l i da _ h, getD_map_of_lt' g2 l i da _ h,
    getD_map_of_lt' g3 l i da _ h, getD_map_of_lt' g4 l i da _ h]

/-- Claim C4: the bisymmetric velocity field before beam smearing.  At
every grid point the model value equals
`vsys + sin(inc)*(vt*cos th - v2t*cos(2(th-pab))*cos th - v2r*sin(2(th-pab))*sin th)`,
where `(r, th)` are the deprojected polar coordinates of the recentred
point, the angles are in radians, and vt, v2t, v2r are the three radial
profiles linearly interpolated at the deprojected radius normalized by the
effective radius. -/
theorem bisym_velmodel_formula (P : Prims) (args : Args) (d : ParamDict) (i : ℕ)
    (h : i < args.grid.length) :
    (bisym_velmodel P args d).getD i 0 =
      (let xy := args.grid.getD i (0, 0)
       let rt := P.polar (xy.1 - d.xc) (xy.2 - d.yc) (radians P d.pa)
         (radians P d.inc)
       let r := rt.1 / args.reff
       d.vsys + P.sin (radians P d.inc) *
         (interp r args.edges d.vt * P.cos rt.2
          - interp r args.edges d.v2t * P.cos (2 * (rt.2 - radians P d.pab))
            * P.cos rt.2
          - interp r args.edges d.v2r * P.sin (2 * (rt.2 - radians P d.pab))
            * P.sin rt.2)) := by
  have hrl : (bisym_rth P args d).length = args.grid.length := by
    rw [bisym_rth, List.length_map]
  have hrd : (bisym_rth P args d).getD i ((0 : ℚ), (0 : ℚ))
      = P.polar ((args.grid.getD i (0, 0)).1 - d.xc)
          ((args.grid.getD i (0, 0)).2 - d.yc)
          (radians P d.pa) (radians P d.inc) := by
    rw [bisym_rth, getD_map_of_lt' _ _ _ (0, 0) _ h]
  simp only [bisym_velmodel, List.map_map]
  rw [zipWith4_map_getD _ _ _ _ _ _ i ((0 : ℚ), (0 : ℚ)) (by rw [hrl]; exact h)]
  rw [hrd]
  rfl

/-- Witness for claim C4 at the concrete context `argsBisym` (a two-point
grid) and dictionary `pdBisym`, at grid index 0. -/
theorem bisym_velmodel_formula_witness :
    0 < argsBisym.grid.length ∧
      (bisym_velmodel P0 argsBisym pdBisym).getD 0 0 =
      (let xy := argsBisym.grid.getD 0 (0, 0)
       let rt := P0.polar (xy.1 - pdBisym.xc) (xy.2 - pdBisym.yc)
         (radians P0 pdBisym.pa) (radians P0 pdBisym.inc)
       let r := rt.1 / argsBisym.reff
       pdBisym.vsys + P0.sin (radians P0 pdBisym.inc) *
         (interp r argsBisym.edges pdBisym.vt * P0.cos rt.2
          - interp r argsBisym.edges pdBisym.v2t
            * P0.cos (2 * (rt.2 - radians P0 pdBisym.pab)) * P0.cos rt.2
          - interp r argsBisym.edges pdBisym.v2r
            * P0.sin (2 * (rt.2 - radians P0 pdBisym.pab)) * P0.sin rt.2)) :=
  ⟨by decide, bisym_velmodel_formula P0 argsBisym pdBisym 0 (by decide)⟩

/-- Claim C7 counterexample to the claim as stated: under the zero-pad
policy of `nirvana.fitting.smoothing` with weight 1, the perfectly linear
array `[10, 20, 30, 40]` does NOT evaluate to 0: the repeated last value on
the right edge makes the final bin contribute `(35 - 40)^2 / 40`, giving
`5/8`. -/
theorem smoothing_linear_counterexample :
    smoothing [10, 20, 30, 40] 1 = 5/8 ∧ (5/8 : ℚ) ≠ 0 := by
  constructor
  · norm_num [smoothing, List.zipWith]
  · norm_num

/-- Claim C7 (amended): smoothness-penalty test values.  Under the zero-pad
boundary policy with weight 1, the linear array `[10,20,30,40]` evaluates
to `5/8` — every interior bin contributes zero, the left zero-padded bin
contributes zero as well (its neighbour average is exactly 10), and only
the repeated-right-edge bin contributes — and the non-monotonic array
`[10,50,10,50]` evaluates to `445/2`, which is strictly positive. -/
theorem smoothing_testvalues :
    smoothing [10, 20, 30, 40] 1 = 5/8 ∧ smoothing [10, 50, 10, 50] 1 = 445/2 ∧
      (0 : ℚ) < smoothing [10, 50, 10, 50] 1 := by
  refine ⟨?_, ?_, ?_⟩ <;> norm_num [smoothing, List.zipWith]

/-- Claim C8: too-few-bins rejection in `nirvana.models.bisym.fit`.  For
every edge count, `fixcent` flag and fitting method, when the number of
usable radial bins `len(args.edges) - fixcent` is fewer than 3 the fit
orchestrator raises "Galaxy unsuitable: too few radial bins" before any
sampler is constructed; it never silently continues to sampling. -/
theorem fit_too_few_bins_raises (nedges : ℕ) (fixcent : Bool) (method : String)
    (h : (nedges : ℤ) - (if fixcent then 1 else 0) < 3) :
    bisymFit nedges fixcent method
      = Except.error "Galaxy unsuitable: too few radial bins" := by
  rw [bisymFit, if_pos h]

/-- Witness for claim C8: three bin edges with a fixed center leave two
usable bins, and the fit is rejected. -/
theorem fit_too_few_bins_raises_witness :
    ((3 : ℤ) - (if true then 1 else 0) < 3) ∧
      bisymFit 3 true "dynesty"
        = Except.error "Galaxy unsuitable: too few radial bins" :=
  ⟨by decide, fit_too_few_bins_raises 3 true "dynesty" (by decide)⟩

/-- Claim C9: malformed-posterior-shape rejection in
`nirvana.plotting.fileprep`.  Whenever the length of the posterior median
vector minus `nglobs`, minus 3 when the mixture is enabled, minus 1 when
the center is fixed, is not divisible by 4, the reconstruction raises
"Dynesty output array has a bad shape." instead of misattributing the
parameters. -/
theorem fileprep_bad_shape_raises (lenmeds nglobs : ℕ) (mix fixcent : Bool)
    (h : ((lenmeds : ℤ) - (nglobs : ℤ) - 3 * (if mix then 1 else 0)
      - (if fixcent then 1 else 0)) % 4 ≠ 0) :
    fileprep_nbins lenmeds nglobs mix fixcent
      = Except.error "Dynesty output array has a bad shape." := by
  simp only [fileprep_nbins]
  rw [if_neg h]

/-- Witness for claim C9: a 22-entry median vector with 6 globals, no
mixture and a fixed center leaves 15, which 4 does not divide. -/
theorem fileprep_bad_shape_raises_witness :
    (((22 : ℤ) - (6 : ℤ) - 3 * (if false then 1 else 0)
      - (if true then 1 else 0)) % 4 ≠ 0) ∧
      fileprep_nbins 22 6 false true
        = Except.error "Dynesty output array has a bad shape." :=
  ⟨by decide, fileprep_bad_shape_raises 22 6 false true (by decide)⟩

/-- Claim C3 (code bug), evaluated at the failing input: over the context
`argsMixEval` (one bin, velocity inverse variance 4, no dispersion) and the
vector `pMixEval` (`Q = 1/2`, `lnV = 0`), the source's mixture likelihood
gives `-331/40` while the spec's mixture model (`mixlike_spec`) gives
`-38/5`.  The difference comes from the source inflating the INVERSE
variance — `badvar = np.exp(lnV) + 1/goodvar = 1 + 4 = 5` instead of the
spec's `goodvar + exp(lnV) = 1/4 + 1 = 5/4`; with dispersion enabled the
source additionally combines the velocity and dispersion scores elementwise
with `np.logaddexp` instead of summing them and reads `np.log(badvar)` in
the bad dispersion score. -/
theorem mixlike_deviates_from_spec :
    mixlike P0 pMixEval argsMixEval = some (-331/40) ∧
      mixlike_spec P0 pMixEval argsMixEval = some (-38/5) ∧
      (-331/40 : ℚ) ≠ -38/5 := by
  refine ⟨?_, ?_, by norm_num⟩ <;>
    norm_num [mixlike, mixlike_spec, unpack, seg, bisym_model, bisym_velmodel,
      bisym_sigmodel, bisym_rth, interp, radians, logaddexp, msum, maskOr,
      smoothing, P0, argsMixEval, pMixEval, mkArgs, zipWith4, List.zipWith3,
      List.zipWith, expectedLen]
